import Mathlib

/-!
Verification of the `tonality` crate's line-of-fifths algebra.

Every definition below is a shallow embedding of the corresponding Rust item
(`src/tpc.rs`, `src/step.rs`, `src/key.rs`, `src/interval.rs`,
`src/accidental.rs`).  Each Rust enum becomes a Lean inductive with the same
constructors; its numeric discriminant becomes a `toInt` function.  Rust's
`i8` arithmetic is modelled on `Int` with an explicit two's-complement wrap
(`wrap8`) at every operation whose mathematical result can leave the `i8`
range under some input; `num_traits::FromPrimitive::from_i8` becomes a
search for the variant with the given discriminant (`fromInt`).

The type alias `Alteration` is declared in the crate as `pub type Alteration
= i8`: the width is forced by `Tpc::alter`'s expression
`self as i8 + by * Self::DELTA_SEMITONE` (with `DELTA_SEMITONE : i8`) and by
the test file's `alter in -3..=3_i8`.  Alteration values are therefore plain
`Int`s here, restricted to the `i8` range where a statement depends on it.
-/

namespace Tonality

/-- Two's-complement wrap of an integer into the range of Rust `i8`
(`-128..=127`).  This is the value an overflowing `i8` operation produces
when Rust's overflow checks are disabled (the release-profile semantics). -/
def wrap8 (v : Int) : Int := (v + 128) % 256 - 128

/-- Rust `enum Accidental` (src/accidental.rs): double or single flat,
natural, double or single sharp, with discriminants `-2..=2`. -/
inductive Accidental
  | DblFlat | Flat | Natural | Sharp | DblSharp
  deriving DecidableEq, Fintype

/-- The discriminant of each `Accidental` variant (`DblFlat = -2`, ...). -/
def Accidental.toInt : Accidental → Int
  | .DblFlat => -2 | .Flat => -1 | .Natural => 0 | .Sharp => 1 | .DblSharp => 2

/-- Rust `enum Step` (src/step.rs): a position on a music staff,
discriminants `0..=6` in alphabetical order starting at C. -/
inductive Step
  | C | D | E | F | G | A | B
  deriving DecidableEq, Fintype

/-- The discriminant of each `Step` variant (`C = 0`, ..., `B = 6`). -/
def Step.toInt : Step → Int
  | .C => 0 | .D => 1 | .E => 2 | .F => 3 | .G => 4 | .A => 5 | .B => 6

/-- Rust `self as usize` on a `Step` (the discriminant is never negative). -/
def Step.toNat (s : Step) : Nat := s.toInt.toNat

/-- Rust `enum Key` (src/key.rs): key signatures named after their major
key, discriminants `-7..=7` along the line of fifths. -/
inductive Key
  | Cb | Gb | Db | Ab | Eb | Bb | F
  | C | G | D | A | E | B | Fs | Cs
  deriving DecidableEq, Fintype

/-- The discriminant of each `Key` variant (`Cb = -7`, ..., `Cs = 7`). -/
def Key.toInt : Key → Int
  | .Cb => -7 | .Gb => -6 | .Db => -5 | .Ab => -4 | .Eb => -3 | .Bb => -2
  | .F => -1 | .C => 0 | .G => 1 | .D => 2 | .A => 3 | .E => 4 | .B => 5
  | .Fs => 6 | .Cs => 7

/-- `Key::MIN`: the flattest key, C flat. -/
def Key.MIN : Key := Key.Cb

/-- `Key::MAX`: the sharpest key, C sharp. -/
def Key.MAX : Key := Key.Cs

/-- Rust `enum Interval` (src/interval.rs): intervals with enharmonic
distinction, discriminants `-12..=12` along the line of fifths. -/
inductive Interval
  | Dim2 | Dim6 | Dim3 | Dim7 | Dim4 | Dim1 | Dim5
  | Min2 | Min6 | Min3 | Min7 | P4
  | Unison
  | P5 | Maj2 | Maj6 | Maj3 | Maj7
  | Aug4 | Aug1 | Aug5 | Aug2 | Aug6 | Aug3 | Aug7
  deriving DecidableEq, Fintype

/-- The discriminant of each `Interval` variant (`Dim2 = -12`, ...,
`Aug7 = 12`). -/
def Interval.toInt : Interval → Int
  | .Dim2 => -12 | .Dim6 => -11 | .Dim3 => -10 | .Dim7 => -9 | .Dim4 => -8
  | .Dim1 => -7 | .Dim5 => -6 | .Min2 => -5 | .Min6 => -4 | .Min3 => -3
  | .Min7 => -2 | .P4 => -1 | .Unison => 0 | .P5 => 1 | .Maj2 => 2
  | .Maj6 => 3 | .Maj3 => 4 | .Maj7 => 5 | .Aug4 => 6 | .Aug1 => 7
  | .Aug5 => 8 | .Aug2 => 9 | .Aug6 => 10 | .Aug3 => 11 | .Aug7 => 12

/-- `Interval::DELTA_ENHARMONIC`: steps along the line of fifths to an
enharmonic variant. -/
def Interval.DELTA_ENHARMONIC : Int := 12

/-- Every `Interval` variant in discriminant order. -/
def Interval.all : List Interval :=
  [.Dim2, .Dim6, .Dim3, .Dim7, .Dim4, .Dim1, .Dim5,
   .Min2, .Min6, .Min3, .Min7, .P4, .Unison, .P5, .Maj2, .Maj6, .Maj3, .Maj7,
   .Aug4, .Aug1, .Aug5, .Aug2, .Aug6, .Aug3, .Aug7]

/-- Derived `num_traits::FromPrimitive::from_i8` for `Interval`: the variant
whose discriminant equals `v`, if any. -/
def Interval.fromInt (v : Int) : Option Interval :=
  Interval.all.find? (fun i => i.toInt == v)

/-- Rust `enum Tpc` (src/tpc.rs): tonal pitch classes on the line of
fifths, discriminants `-15..=19` (`Fbb = -15`, `F = -1`, `C = 0`,
`Bss = 19`). -/
inductive Tpc
  | Fbb | Cbb | Gbb | Dbb | Abb | Ebb | Bbb
  | Fb | Cb | Gb | Db | Ab | Eb | Bb
  | F | C | G | D | A | E | B
  | Fs | Cs | Gs | Ds | As | Es | Bs
  | Fss | Css | Gss | Dss | Ass | Ess | Bss
  deriving DecidableEq, Fintype

/-- The discriminant of each `Tpc` variant (`Fbb = -15`, ..., `Bss = 19`). -/
def Tpc.toInt : Tpc → Int
  | .Fbb => -15 | .Cbb => -14 | .Gbb => -13 | .Dbb => -12 | .Abb => -11
  | .Ebb => -10 | .Bbb => -9 | .Fb => -8 | .Cb => -7 | .Gb => -6
  | .Db => -5 | .Ab => -4 | .Eb => -3 | .Bb => -2 | .F => -1
  | .C => 0 | .G => 1 | .D => 2 | .A => 3 | .E => 4 | .B => 5
  | .Fs => 6 | .Cs => 7 | .Gs => 8 | .Ds => 9 | .As => 10 | .Es => 11
  | .Bs => 12 | .Fss => 13 | .Css => 14 | .Gss => 15 | .Dss => 16
  | .Ass => 17 | .Ess => 18 | .Bss => 19

/-- `Tpc::MAX`: the sharpest valid Tpc, B double sharp. -/
def Tpc.MAX : Tpc := Tpc.Bss

/-- `Tpc::MIN`: the flattest valid Tpc, F double flat. -/
def Tpc.MIN : Tpc := Tpc.Fbb

/-- `Tpc::DELTA_SEMITONE`: number of fifths to add to be a semitone
higher. -/
def Tpc.DELTA_SEMITONE : Int := 7

/-- `Tpc::DELTA_ENHARMONIC`: number of fifths to the next enharmonic
spelling. -/
def Tpc.DELTA_ENHARMONIC : Int := 12

/-- Every `Tpc` variant in discriminant order. -/
def Tpc.all : List Tpc :=
  [.Fbb, .Cbb, .Gbb, .Dbb, .Abb, .Ebb, .Bbb,
   .Fb, .Cb, .Gb, .Db, .Ab, .Eb, .Bb,
   .F, .C, .G, .D, .A, .E, .B,
   .Fs, .Cs, .Gs, .Ds, .As, .Es, .Bs,
   .Fss, .Css, .Gss, .Dss, .Ass, .Ess, .Bss]

/-- Derived `num_traits::FromPrimitive::from_i8` for `Tpc`: the variant
whose discriminant equals `v`, if any. -/
def Tpc.fromInt (v : Int) : Option Tpc :=
  Tpc.all.find? (fun t => t.toInt == v)

/-- An integer is a valid `Tpc` coordinate when it lies in
`Tpc::MIN..=Tpc::MAX`, that is `-15..=19`. -/
def TpcValid (v : Int) : Prop := Tpc.MIN.toInt ≤ v ∧ v ≤ Tpc.MAX.toInt

instance (v : Int) : Decidable (TpcValid v) := by
  unfold TpcValid; exact inferInstance

/-- The `SPELLINGS` table of `Step::with_accidental` (src/step.rs): for each
letter C..B, its five spellings from double flat to double sharp. -/
def SPELLINGS : List Tpc :=
  [.Cbb, .Cb, .C, .Cs, .Css,
   .Dbb, .Db, .D, .Ds, .Dss,
   .Ebb, .Eb, .E, .Es, .Ess,
   .Fbb, .Fb, .F, .Fs, .Fss,
   .Gbb, .Gb, .G, .Gs, .Gss,
   .Abb, .Ab, .A, .As, .Ass,
   .Bbb, .Bb, .B, .Bs, .Bss]

/-- `Step::with_accidental` (src/step.rs): the tonal pitch class resulting
from applying an accidental to the step, looked up as
`SPELLINGS[step * 5 + alter + 2]`.  The index always lies in `0..=34`, so
the source's `usize::try_from(i).unwrap()` and the array access never
panic; `getD`'s default is unreachable. -/
def Step.with_accidental (s : Step) (alter : Accidental) : Tpc :=
  SPELLINGS.getD (Int.toNat (s.toInt * 5 + alter.toInt + 2)) Tpc.C

/-- The `BY_STEP_AND_KEY` table of `Step::with_key` (src/step.rs): for each
of the 15 keys (flattest to sharpest), the spelling of each of the 7 steps
in that key's major scale. -/
def BY_STEP_AND_KEY : List Tpc :=
  [Tpc.Cb, Tpc.Db, Tpc.Eb, Tpc.Fb, Tpc.Gb, Tpc.Ab, Tpc.Bb,
   Tpc.Cb, Tpc.Db, Tpc.Eb, Tpc.F, Tpc.Gb, Tpc.Ab, Tpc.Bb,
   Tpc.C, Tpc.Db, Tpc.Eb, Tpc.F, Tpc.Gb, Tpc.Ab, Tpc.Bb,
   Tpc.C, Tpc.Db, Tpc.Eb, Tpc.F, Tpc.G, Tpc.Ab, Tpc.Bb,
   Tpc.C, Tpc.D, Tpc.Eb, Tpc.F, Tpc.G, Tpc.Ab, Tpc.Bb,
   Tpc.C, Tpc.D, Tpc.Eb, Tpc.F, Tpc.G, Tpc.A, Tpc.Bb,
   Tpc.C, Tpc.D, Tpc.E, Tpc.F, Tpc.G, Tpc.A, Tpc.Bb,
   Tpc.C, Tpc.D, Tpc.E, Tpc.F, Tpc.G, Tpc.A, Tpc.B,
   Tpc.C, Tpc.D, Tpc.E, Tpc.Fs, Tpc.G, Tpc.A, Tpc.B,
   Tpc.Cs, Tpc.D, Tpc.E, Tpc.Fs, Tpc.G, Tpc.A, Tpc.B,
   Tpc.Cs, Tpc.D, Tpc.E, Tpc.Fs, Tpc.Gs, Tpc.A, Tpc.B,
   Tpc.Cs, Tpc.Ds, Tpc.E, Tpc.Fs, Tpc.Gs, Tpc.A, Tpc.B,
   Tpc.Cs, Tpc.Ds, Tpc.E, Tpc.Fs, Tpc.Gs, Tpc.As, Tpc.B,
   Tpc.Cs, Tpc.Ds, Tpc.Es, Tpc.Fs, Tpc.Gs, Tpc.As, Tpc.B,
   Tpc.Cs, Tpc.Ds, Tpc.Es, Tpc.Fs, Tpc.Gs, Tpc.As, Tpc.Bs]

/-- `Step::with_key` (src/step.rs): the tonal pitch class of the step in the
given key, looked up as `BY_STEP_AND_KEY[7 * (key - Key::MIN) + step]`.
`key - Key::MIN` lies in `0..=14` and the full index in `0..=104`, so the
source's `usize::try_from(..).unwrap()` and the array access never panic;
`getD`'s default is unreachable. -/
def Step.with_key (s : Step) (key : Key) : Tpc :=
  BY_STEP_AND_KEY.getD (7 * Int.toNat (key.toInt - Key.MIN.toInt) + s.toNat) Tpc.C

/-- The `OFFSETS` table of `Key::scale_degree` (src/key.rs): each scale
degree's distance from the root, in fifths. -/
def OFFSETS : List Int := [0, 2, 4, -1, 1, 3, 5]

/-- `Key::scale_degree` (src/key.rs): the Tpc of the zero-indexed scale
degree, `from_i8(key + OFFSETS[degree.rem_euclid(7)]).unwrap()`.  The list
index lies in `0..=6` and the coordinate `key + offset` in `-8..=12`, a
valid `Tpc` coordinate, so neither the array access nor the `unwrap`
panics; both `getD` defaults are unreachable.  `key + offset` stays inside
`i8`, so the wrap is the identity here. -/
def Key.scale_degree (k : Key) (degree : Int) : Tpc :=
  (Tpc.fromInt (wrap8 (k.toInt + OFFSETS.getD (Int.toNat (Int.emod degree 7)) 0))).getD Tpc.C

/-- `Tpc::step` (src/tpc.rs): the basic step of the Tpc, from
`(self as i8).rem_euclid(7)` through the fixed table.  Rust's `rem_euclid`
on a positive modulus is `Int.emod`; its result here lies in `0..=6`. -/
def Tpc.step (t : Tpc) : Step :=
  match (Int.emod t.toInt 7).toNat with
  | 0 => Step.C
  | 1 => Step.G
  | 2 => Step.D
  | 3 => Step.A
  | 4 => Step.E
  | 5 => Step.B
  | _ => Step.F

/-- `Tpc::alteration` (src/tpc.rs): the number of semitones by which the tpc
is altered with respect to the key,
`(tpc - key - Tpc::MIN + Key::MAX) / Tpc::DELTA_SEMITONE - 3` in `i8`
arithmetic, where Rust `/` truncates toward zero (`Int.tdiv`).  Every
intermediate value lies in `i8` for valid inputs, so each wrap is the
identity. -/
def Tpc.alteration (t : Tpc) (key : Key) : Int :=
  Int.tdiv (wrap8 (wrap8 (wrap8 (t.toInt - key.toInt) - Tpc.MIN.toInt) + Key.MAX.toInt))
    Tpc.DELTA_SEMITONE - 3

/-- `Tpc::accidental` (src/tpc.rs): the accidental for the Tpc, from
`(self as i8 + 1).div_euclid(7)` (Rust `div_euclid` on a positive divisor
is `Int.ediv`) through the fixed table.  The quotient lies in `-2..=2` for
every variant, so the final branch is exactly the `2 => DblSharp` arm and
the source's `unreachable!` arm is never hit. -/
def Tpc.accidental (t : Tpc) : Accidental :=
  let q := Int.ediv (wrap8 (t.toInt + 1)) 7
  if q = -2 then Accidental.DblFlat
  else if q = -1 then Accidental.Flat
  else if q = 0 then Accidental.Natural
  else if q = 1 then Accidental.Sharp
  else Accidental.DblSharp

/-- `Tpc::altered_step` (src/tpc.rs): the appropriate accidental for the Tpc
in a key, defaulting to C major (`Default for Key` is `C`) when no key is
given. -/
def Tpc.altered_step (t : Tpc) (key : Option Key) : Step × Option Accidental :=
  let k := key.getD Key.C
  let step := t.step
  if step.with_key k = t then (step, none) else (step, some t.accidental)

/-- `Tpc::alter` (src/tpc.rs): adjust alteration while maintaining the step
value, `from_i8(self as i8 + by * Self::DELTA_SEMITONE)`.  Both the `i8`
product `by * 7` and the `i8` sum wrap on overflow (release-profile
semantics; with overflow checks enabled the same inputs panic instead). -/
def Tpc.alter (t : Tpc) (by' : Int) : Option Tpc :=
  Tpc.fromInt (wrap8 (t.toInt + wrap8 (by' * Tpc.DELTA_SEMITONE)))

/-- `impl Add<Interval> for Tpc` (src/tpc.rs): `from_i8(self as i8 + rhs as
i8)`. -/
def Tpc.add (t : Tpc) (rhs : Interval) : Option Tpc :=
  Tpc.fromInt (wrap8 (t.toInt + rhs.toInt))

/-- `impl Sub<Interval> for Tpc` (src/tpc.rs): `from_i8(self as i8 - rhs as
i8)`. -/
def Tpc.sub (t : Tpc) (rhs : Interval) : Option Tpc :=
  Tpc.fromInt (wrap8 (t.toInt - rhs.toInt))

/-- `impl Add<Interval> for Interval` (src/interval.rs). -/
def Interval.add (a rhs : Interval) : Option Interval :=
  Interval.fromInt (wrap8 (a.toInt + rhs.toInt))

/-- `impl Sub<Interval> for Interval` (src/interval.rs). -/
def Interval.sub (a rhs : Interval) : Option Interval :=
  Interval.fromInt (wrap8 (a.toInt - rhs.toInt))

/-- `Interval::enharmonic` (src/interval.rs): whether two intervals
represent the same distance in semitones in twelve tone equal temperament,
`(self as i8 - other as i8) % Self::DELTA_ENHARMONIC == 0`, where Rust `%`
is the truncating remainder (`Int.tmod`). -/
def Interval.enharmonic (a other : Interval) : Bool :=
  Int.tmod (wrap8 (a.toInt - other.toInt)) Interval.DELTA_ENHARMONIC == 0

/-- `impl From<Tpc> for Step` (src/step.rs): the exhaustive 35-variant
match. -/
def Step.from_tpc (tpc : Tpc) : Step :=
  match tpc with
  | .Bbb | .Bb | .B | .Bs | .Bss => Step.B
  | .Fbb | .Fb | .F | .Fs | .Fss => Step.F
  | .Cbb | .Cb | .C | .Cs | .Css => Step.C
  | .Gbb | .Gb | .G | .Gs | .Gss => Step.G
  | .Dbb | .Db | .D | .Ds | .Dss => Step.D
  | .Abb | .Ab | .A | .As | .Ass => Step.A
  | .Ebb | .Eb | .E | .Es | .Ess => Step.E

/-- The fifths-circle position of each letter as the spec states it (§4.1):
the fixed permutation F=0, C=1, G=2, D=3, A=4, E=5, B=6.  Stated from the
spec's words, to be compared with `Step.with_accidental`. -/
def fifths_position : Step → Int
  | .F => 0 | .C => 1 | .G => 2 | .D => 3 | .A => 4 | .E => 5 | .B => 6

/-- The recomposition of a `(Step, Option Accidental)` pair in a key, as the
repository's property test `steps_accidentals_can_recompose`
(tests/properties.rs) performs it: a bare step is spelled by the key, an
explicit accidental overrides it. -/
def recomposed (key : Key) : Step × Option Accidental → Tpc
  | (step, none) => step.with_key key
  | (step, some acc) => step.with_accidental acc

/-! ## Helper lemmas -/

theorem wrap8_eq_self (v : Int) (h1 : -128 ≤ v) (h2 : v ≤ 127) : wrap8 v = v := by
  unfold wrap8; omega

theorem tpc_toInt_of_fromInt {v : Int} {t : Tpc} (h : Tpc.fromInt v = some t) :
    t.toInt = v := by
  unfold Tpc.fromInt at h
  simpa using List.find?_some h

theorem interval_toInt_of_fromInt {v : Int} {i : Interval}
    (h : Interval.fromInt v = some i) : i.toInt = v := by
  unfold Interval.fromInt at h
  simpa using List.find?_some h

theorem Tpc.toInt_inj : ∀ a b : Tpc, a.toInt = b.toInt → a = b := by decide

theorem tpc_toInt_bounds : ∀ t : Tpc, -15 ≤ t.toInt ∧ t.toInt ≤ 19 := by decide

theorem interval_toInt_bounds : ∀ i : Interval, -12 ≤ i.toInt ∧ i.toInt ≤ 12 := by
  decide

/-! ## The claims -/

/-- C1: the claim says `Tpc::alter` returns `Some` exactly when the
mathematical coordinate `t + 7*d` stays in `-15..19` and otherwise `None`,
never wrapping or raising.  The code violates this: at `Tpc::C.alter(37)`
the `i8` product `37 * DELTA_SEMITONE = 259` overflows, wrapping to `3`
(or panicking when overflow checks are on), so the code answers
`Some(Tpc::A)` although the mathematical coordinate `0 + 259` is far
outside the valid range and both the claim and the function's own doc
comment require `None`. -/
theorem alter_overflow_wraps_into_range :
    Tpc.C.alter 37 = some Tpc.A ∧
    ¬ TpcValid (Tpc.C.toInt + 37 * Tpc.DELTA_SEMITONE) := by decide

/-- C2 counterexample: the claim says the alteration numerator
`tpc - key - Tpc::MIN + Key::MAX` is an exact multiple of 7 for every
valid input; at `Tpc::A` in `Key::C` the numerator is `25`, which is not a
multiple of 7. -/
theorem alteration_numerator_not_multiple_of_seven :
    ¬ (7 ∣ (Tpc.A.toInt - Key.C.toInt - Tpc.MIN.toInt + Key.MAX.toInt)) := by
  decide

/-- C2 (amended): for every valid `Tpc` and `Key`, the alteration numerator
`tpc - key - Tpc::MIN + Key::MAX` is nonnegative (it lies in `0..=48`),
so truncating division and floor division by 7 agree on it. -/
theorem alteration_numerator_nonneg_trunc_eq_floor :
    ∀ (t : Tpc) (k : Key),
      0 ≤ t.toInt - k.toInt - Tpc.MIN.toInt + Key.MAX.toInt ∧
      Int.tdiv (t.toInt - k.toInt - Tpc.MIN.toInt + Key.MAX.toInt) 7 =
        Int.fdiv (t.toInt - k.toInt - Tpc.MIN.toInt + Key.MAX.toInt) 7 := by
  decide

/-- C3: spelling recomposition round-trips.  For every valid `Tpc` `t` and
`Key` `k`, if `t.altered_step(Some(k))` returns `(step, None)` then
`step.with_key(k) = t`, and if it returns `(step, Some(a))` then
`step.with_accidental(a) = t`; `recomposed` performs exactly that match. -/
theorem altered_step_recomposition :
    ∀ (t : Tpc) (k : Key), recomposed k (t.altered_step (some k)) = t := by
  decide

/-- C4: for every `Step` `s` and `Key` `k` there is exactly one scale degree
`n` in `0..6` with `scale_degree(k, n).step() = s`, and `with_key(s, k)`
equals `scale_degree(k, n)` for that degree; both functions are total over
all 7 steps and 15 keys by construction. -/
theorem with_key_unique_scale_degree :
    ∀ (s : Step) (k : Key),
      (∃ n : Fin 7, (k.scale_degree n.val).step = s ∧
        ∀ m : Fin 7, (k.scale_degree m.val).step = s → m = n) ∧
      ∀ n : Fin 7, (k.scale_degree n.val).step = s →
        s.with_key k = k.scale_degree n.val := by
  decide

/-- C5: `with_accidental(s, a)` returns the `Tpc` with coordinate
`7*(accidental_level + 2) + fifths_position(s) - 15`, where
`fifths_position` is the fixed permutation F=0, C=1, G=2, D=3, A=4, E=5,
B=6, and the coordinate always lies in `-15..19`. -/
theorem with_accidental_closed_form :
    ∀ (s : Step) (a : Accidental),
      (s.with_accidental a).toInt = 7 * (a.toInt + 2) + fifths_position s - 15 ∧
      TpcValid (s.with_accidental a).toInt := by
  decide

/-- C6: `alteration(tpc, key)` equals
`floor((tpc - key - Tpc::MIN + Key::MAX) / 7) - 3` (floor division,
`Int.fdiv`), and the five examples of the spec hold:
`A.alteration(C) = 0`, `F#.alteration(C) = 1`, `C.alteration(D) = -1`,
`Fbb.alteration(C#) = -3`, `Eb.alteration(Bb) = 0`. -/
theorem alteration_floor_div_formula :
    (∀ (t : Tpc) (k : Key),
      t.alteration k =
        Int.fdiv (t.toInt - k.toInt - Tpc.MIN.toInt + Key.MAX.toInt) 7 - 3) ∧
    Tpc.A.alteration Key.C = 0 ∧ Tpc.Fs.alteration Key.C = 1 ∧
    Tpc.C.alteration Key.D = -1 ∧ Tpc.Fbb.alteration Key.Cs = -3 ∧
    Tpc.Eb.alteration Key.Bb = 0 := by
  decide

/-- C7: partial associativity of transposition.  For every valid `Tpc` `t`
and `Interval`s `i1`, `i2`, whenever both `(t + i1) + i2` and
`t + (i1 + i2)` are defined (every intermediate addition returns `Some`),
the two resulting `Tpc`s are equal. -/
theorem tpc_add_interval_assoc (t : Tpc) (i1 i2 : Interval) (a b : Tpc)
    (h1 : (t.add i1).bind (fun u => u.add i2) = some a)
    (h2 : (i1.add i2).bind (fun j => t.add j) = some b) :
    a = b := by
  cases e1 : t.add i1 with
  | none => rw [e1] at h1; exact absurd h1 (by simp)
  | some u =>
    rw [e1] at h1
    simp only [Option.some_bind] at h1
    cases e2 : i1.add i2 with
    | none => rw [e2] at h2; exact absurd h2 (by simp)
    | some j =>
      rw [e2] at h2
      simp only [Option.some_bind] at h2
      have ht := tpc_toInt_bounds t
      have hub := tpc_toInt_bounds u
      have hi1 := interval_toInt_bounds i1
      have hi2 := interval_toInt_bounds i2
      have hjb := interval_toInt_bounds j
      unfold Tpc.add at e1 h1
      unfold Interval.add at e2
      unfold Tpc.add at h2
      have hu := tpc_toInt_of_fromInt e1
      have ha := tpc_toInt_of_fromInt h1
      have hj := interval_toInt_of_fromInt e2
      have hb := tpc_toInt_of_fromInt h2
      rw [wrap8_eq_self (t.toInt + i1.toInt) (by omega) (by omega)] at hu
      rw [wrap8_eq_self (u.toInt + i2.toInt) (by omega) (by omega)] at ha
      rw [wrap8_eq_self (i1.toInt + i2.toInt) (by omega) (by omega)] at hj
      rw [wrap8_eq_self (t.toInt + j.toInt) (by omega) (by omega)] at hb
      exact Tpc.toInt_inj a b (by omega)

/-- C7 witness: `(C + Maj3) + Min3` and `C + (Maj3 + Min3)` are both
defined and `tpc_add_interval_assoc` applies at them. -/
theorem tpc_add_interval_assoc_witness :
    (Tpc.C.add Interval.Maj3).bind (fun u => u.add Interval.Min3) = some Tpc.G ∧
    (Interval.Maj3.add Interval.Min3).bind (fun j => Tpc.C.add j) = some Tpc.G ∧
    Tpc.G = Tpc.G :=
  ⟨by decide, by decide,
    tpc_add_interval_assoc Tpc.C Interval.Maj3 Interval.Min3 Tpc.G Tpc.G
      (by decide) (by decide)⟩

/-- C8: the claim says a successful `alter` never changes the letter.  The
code violates this: `Tpc::C.alter(37)` succeeds with `Some(Tpc::A)` under
the wrapping `i8` product `37 * 7 = 259 = 3 (mod 256)` (or panics when
overflow checks are on), and `Tpc::A.step()` differs from
`Tpc::C.step()`. -/
theorem alter_overflow_changes_step :
    Tpc.C.alter 37 = some Tpc.A ∧ Tpc.A.step ≠ Tpc.C.step := by decide

/-- C9: `enharmonic(a, b)` returns `true` exactly when the two interval
coordinates differ by an exact multiple of 12, and the spec's examples
hold: Aug4 is enharmonic with Dim5, Aug2 with Min3, and Unison is not
enharmonic with Aug1. -/
theorem enharmonic_iff_multiple_of_twelve :
    (∀ a b : Interval,
      a.enharmonic b = true ↔ ∃ m : Int, a.toInt - b.toInt = 12 * m) ∧
    Interval.Aug4.enharmonic Interval.Dim5 = true ∧
    Interval.Aug2.enharmonic Interval.Min3 = true ∧
    Interval.Unison.enharmonic Interval.Aug1 = false := by
  refine ⟨fun a b => ?_, by decide, by decide, by decide⟩
  have ha := interval_toInt_bounds a
  have hb := interval_toInt_bounds b
  unfold Interval.enharmonic Interval.DELTA_ENHARMONIC
  rw [wrap8_eq_self (a.toInt - b.toInt) (by omega) (by omega)]
  constructor
  · intro h
    have h0 : Int.tmod (a.toInt - b.toInt) 12 = 0 := by simpa using h
    refine ⟨Int.tdiv (a.toInt - b.toInt) 12, ?_⟩
    have := Int.tdiv_add_tmod (a.toInt - b.toInt) 12
    omega
  · rintro ⟨m, hm⟩
    rw [hm]
    simp [Int.mul_tmod_right]

/-- C10: the two implementations of the Tpc-to-Step mapping agree: the
exhaustive 35-variant match of `impl From<Tpc> for Step` returns the same
`Step` as `Tpc::step`'s `rem_euclid(7)` table lookup, for every valid
`Tpc`. -/
theorem from_tpc_agrees_with_step : ∀ t : Tpc, Step.from_tpc t = t.step := by
  decide

end Tonality
